/-
Verification development for the core of the IPA three-party MPC framework.

The Rust sources are shallowly embedded: pure functions become Lean
functions, machine integers become `Nat` with explicit bounds where the
source converts or can overflow, fallible or panicking code returns
`Option`/`Except`.  Each definition is annotated with the source location
it embeds.  Definitions come first, theorems afterwards.
-/
import Mathlib

set_option maxRecDepth 40000
set_option exponentiation.threshold 400

/-! # Definitions -/

/-! ## Fast modular exponentiation (proof infrastructure)

Used to certify primality of the Curve25519 scalar-field order via
Lucas/Pratt certificates.  Fuel-structural so that concrete instances
reduce inside the kernel. -/

def powModAux (m : Nat) : Nat → Nat → Nat → Nat
  | 0, _, _ => 1 % m
  | fuel + 1, b, e =>
    if e = 0 then 1 % m
    else
      let r := powModAux m fuel (b * b % m) (e / 2)
      if e % 2 = 1 then r * b % m else r

def powMod (m b e : Nat) : Nat := powModAux m 300 b e

/-! ## Gateway message buffer (src/helpers/messaging.rs)

`MessageBuffer` holds, per `(channel, record)` slot, either an outstanding
receive request (`Requested`, holding a oneshot delivery sink) or a
buffered payload (`Received`).  The oneshot sender is modelled by `Sink`:
`alive` records whether the receiving end still exists, so that `send`
on a dropped receiver fails and the event loop logs a warning instead.
A panic is modelled as `none`. -/

/-- Payload bytes of a message (`Box<[u8]>`). -/
abbrev Payload := List Nat

/-- A oneshot delivery sink (`oneshot::Sender<Box<[u8]>>`).  `alive` models
whether the paired receiver has not been dropped. -/
structure Sink where
  id : Nat
  alive : Bool
deriving DecidableEq

/-- `BufItem` from messaging.rs: a two-state tagged buffer slot value. -/
inductive BufItem where
  | Requested (sink : Sink)
  | Received (payload : Payload)
deriving DecidableEq

/-- `MessageEnvelope` from helpers/fabric.rs: `(record_id, payload)`. -/
structure MessageEnvelope where
  record_id : Nat
  payload : Payload
deriving DecidableEq

/-- Observable effect of one buffer operation: a successful delivery into a
sink, a logged warning for a dropped sink, or a silent insertion. -/
inductive Effect where
  | delivered (sink : Sink) (payload : Payload)
  | warned
  | buffered
deriving DecidableEq

/-- The per-channel buffer `HashMap<RecordId, BufItem>`, modelled as an
association list keyed by record id. -/
abbrev MessageBuffer := List (Nat × BufItem)

/-- HashMap lookup on the association-list model. -/
def findRecord : MessageBuffer → Nat → Option BufItem
  | [], _ => none
  | (k, v) :: rest, rid => if k = rid then some v else findRecord rest rid

/-- `Entry::Occupied(entry).remove()`: drop the entry for a key. -/
def eraseRecord : MessageBuffer → Nat → MessageBuffer
  | [], _ => []
  | (k, v) :: rest, rid => if k = rid then rest else (k, v) :: eraseRecord rest rid

/-- `Entry::Vacant(entry).insert(item)`. -/
def insertRecord (buf : MessageBuffer) (rid : Nat) (item : BufItem) : MessageBuffer :=
  (rid, item) :: buf

/-- `s.send(payload).unwrap_or_else(|_| tracing::warn!(..))`: deliver the
payload if the receiver still exists, otherwise log and discard. -/
def sendToSink (s : Sink) (payload : Payload) : Effect :=
  if s.alive then Effect.delivered s payload else Effect.warned

/-- `MessageBuffer::receive_request` (messaging.rs lines 203-219).  `none`
models the panic on a duplicate outstanding receive request. -/
def MessageBuffer.receive_request (buf : MessageBuffer) (record_id : Nat) (s : Sink) :
    Option (MessageBuffer × Effect) :=
  match findRecord buf record_id with
  | some (BufItem.Requested _) => none
  | some (BufItem.Received payload) =>
      some (eraseRecord buf record_id, sendToSink s payload)
  | none => some (insertRecord buf record_id (BufItem.Requested s), Effect.buffered)

/-- `MessageBuffer::receive_message` (messaging.rs lines 222-238).  `none`
models the panic on a duplicate message for the same record. -/
def MessageBuffer.receive_message (buf : MessageBuffer) (msg : MessageEnvelope) :
    Option (MessageBuffer × Effect) :=
  match findRecord buf msg.record_id with
  | some (BufItem.Requested s) =>
      some (eraseRecord buf msg.record_id, sendToSink s msg.payload)
  | some (BufItem.Received _) => none
  | none => some (insertRecord buf msg.record_id (BufItem.Received msg.payload), Effect.buffered)

/-- `MessageBuffer::receive_messages` (messaging.rs lines 240-244). -/
def MessageBuffer.receive_messages (buf : MessageBuffer) :
    List MessageEnvelope → Option MessageBuffer
  | [] => some buf
  | msg :: rest =>
    match buf.receive_message msg with
    | none => none
    | some (buf', _) => MessageBuffer.receive_messages buf' rest

/-! ## Fp25519: the Curve25519 scalar field (ipa-core/src/ff/ec_prime_field.rs)

`Fp25519` wraps `curve25519_dalek::Scalar`, the prime field of order
`l = 2^252 + 27742317777372353535851937790883648493`.  A `Scalar` is a
canonical residue in `[0, l)`; `to_bytes` is its 32-byte little-endian
encoding and `from_bytes_mod_order` reduces an arbitrary 32-byte
little-endian value modulo `l`.  The dalek scalar is embedded as `ZMod`
of the order. -/

/-- The order of the Curve25519 scalar field (the prime `l`). -/
def p25519 : Nat := 2 ^ 252 + 27742317777372353535851937790883648493

/-- `Fp25519(<Scalar>)`: a canonical scalar residue. -/
abbrev Fp25519 := ZMod p25519

instance : NeZero p25519 := ⟨by norm_num [p25519]⟩

/-- Little-endian byte encoding of width `n` (`Scalar::to_bytes` uses
`n = 32`). -/
def leBytes : Nat → Nat → List Nat
  | 0, _ => []
  | n + 1, v => v % 256 :: leBytes n (v / 256)

/-- Little-endian value of a byte string (how `Scalar::from_bytes_mod_order`
interprets its input before reduction). -/
def leVal : List Nat → Nat
  | [] => 0
  | b :: bs => b + 256 * leVal bs

/-- `Serializable::serialize` for `Fp25519` (ec_prime_field.rs lines 56-58):
the 32-byte little-endian encoding of the canonical residue. -/
def Fp25519.serialize (a : Fp25519) : List Nat := leBytes 32 a.val

/-- `Serializable::deserialize` for `Fp25519` (ec_prime_field.rs lines 61-63):
always `Ok`, reducing the little-endian value modulo the order.  The error
type `Infallible` is embedded as `Empty`. -/
def Fp25519.deserialize (buf : List Nat) : Except Empty Fp25519 :=
  Except.ok ((leVal buf : Nat) : Fp25519)

/-- `Fp25519::invert` (ec_prime_field.rs lines 30-33): `none` models the
`assert_ne!(*self, Fp25519::ZERO)` panic; otherwise the multiplicative
inverse computed by `Scalar::invert`. -/
def Fp25519.invert (a : Fp25519) : Option Fp25519 :=
  if a = 0 then none else some a⁻¹

/-! ## Step tree (ipa-macros/src/parser.rs)

The steps file is a list of lines; each line is a `/`-separated sequence of
`::`-qualified names.  `read_steps_file` is I/O and is factored out: the
embedding takes the list of lines directly.  Rust's `str::split` is
embedded by a fuel-structural splitter over character lists so that
concrete instances reduce in the kernel. -/

/-- Rust `str::split` with a non-empty separator, over character lists:
the (possibly empty) pieces between non-overlapping left-to-right
occurrences of the separator.  `fuel ≥ s.length` suffices. -/
def splitCharsAux (sep : List Char) : Nat → List Char → List Char → List (List Char)
  | 0, acc, s => [acc.reverse ++ s]
  | fuel + 1, acc, s =>
    match s with
    | [] => [acc.reverse]
    | c :: rest =>
      if sep.isPrefixOf s then acc.reverse :: splitCharsAux sep fuel [] (s.drop sep.length)
      else splitCharsAux sep fuel (c :: acc) rest

/-- Rust `s.split(sep)` collected into a list. -/
def splitString (s sep : String) : List String :=
  (splitCharsAux sep.data s.data.length [] s.data).map String.mk

/-- `StepMetaData` (parser.rs lines 14-20).  `id` is `u16` and `depth` is
`u8` in the source; they are embedded as `Nat`, with the `try_from`
conversion panics modelled at the construction site. -/
structure StepMetaData where
  id : Nat
  depth : Nat
  module : String
  name : String
  path : String
deriving DecidableEq

/-- `split_step_module_and_name` (parser.rs lines 114-118): split a `::`
qualified segment into the module path and the final name. -/
def split_step_module_and_name (input : String) : String × String :=
  let mod_parts := splitString input "::"
  (String.intercalate "::" mod_parts.dropLast, mod_parts.getLastD "")

/-- Number of `/`-separated segments of a steps-file line. -/
def lineDepth (line : String) : Nat := (splitString line "/").length

/-- The per-line construction inside `ipa_state_transition_map` (parser.rs
lines 42-58): id `i + 1` (a `u16`, panicking on overflow), depth = number
of `/` segments (a `u8`, panicking on overflow), module and name from the
last segment, path from the stripped names. -/
def mkStep (i : Nat) (line : String) : Option StepMetaData :=
  if 65536 ≤ i + 1 then none
  else
    let path_list := (splitString line "/").map split_step_module_and_name
    if 256 ≤ path_list.length then none
    else
      match path_list.getLast? with
      | none => none
      | some lastPart =>
          some ⟨i + 1, path_list.length, lastPart.1, lastPart.2,
            String.intercalate "/" (path_list.map Prod.snd)⟩

/-- The `enumerate().map(..)` pass of `ipa_state_transition_map` over all
lines, starting at index `i`. -/
def mkSteps : Nat → List String → Option (List StepMetaData)
  | _, [] => some []
  | i, line :: rest =>
    match mkStep i line with
    | none => none
    | some s =>
      match mkSteps (i + 1) rest with
      | none => none
      | some ss => some (s :: ss)

/-- A node of the step tree.  The `Node<T>` helper type (ipa-macros/src/tree.rs,
not among the given sources) is a tree with parent links; the tree is
embedded flattened in insertion order, each node holding the index of its
parent (`none` for the root). -/
structure TreeNode where
  data : StepMetaData
  parent : Option Nat
deriving DecidableEq

/-- The synthetic root (parser.rs lines 80-86). -/
def rootStep : StepMetaData := ⟨0, 0, "ipa", "root", "root"⟩

/-- `last_node.get_parent().unwrap()` iterated `k` times starting from node
index `i`; `none` models the unwrap panic (climbing past the root). -/
def climbUp (nodes : List TreeNode) : Nat → Nat → Option Nat
  | i, 0 => some i
  | i, k + 1 =>
    match nodes[i]? with
    | none => none
    | some nd =>
      match nd.parent with
      | none => none
      | some p => climbUp nodes p k

/-- The loop body of `construct_tree` (parser.rs lines 92-105): for each
step, climb `last_node.depth + 1 - step.depth` parents (zero times when the
new step is one level down) to find the parent, then append the new node
and make it `last_node`. -/
def construct_tree_go : List TreeNode → Nat → List StepMetaData → Option (List TreeNode)
  | nodes, _, [] => some nodes
  | nodes, last, step :: rest =>
    match nodes[last]? with
    | none => none
    | some lastNode =>
      match climbUp nodes last (lastNode.data.depth + 1 - step.depth) with
      | none => none
      | some p => construct_tree_go (nodes ++ [⟨step, some p⟩]) nodes.length rest

/-- `construct_tree` (parser.rs lines 79-107). -/
def construct_tree (steps : List StepMetaData) : Option (List TreeNode) :=
  construct_tree_go [⟨rootStep, none⟩] 0 steps

/-- `ipa_state_transition_map` (parser.rs lines 38-62), taking the lines of
the steps file. -/
def ipa_state_transition_map (lines : List String) : Option (List TreeNode) :=
  match mkSteps 0 lines with
  | none => none
  | some steps => construct_tree steps

/-- Validity of a steps file, expressed on the per-line depths: the file is
sorted so that every node's children appear after it, hence the first line
has depth 1 and each line descends at most one level below its
predecessor.  `prev` is the preceding line's depth (0 initially, for the
synthetic root). -/
def validDepthsFrom : Nat → List Nat → Bool
  | _, [] => true
  | prev, d :: ds => decide (1 ≤ d) && decide (d ≤ prev + 1) && validDepthsFrom d ds

/-! ## Replicated and malicious shares
(src/secret_sharing/malicious_replicated.rs, src/test_fixture/sharing.rs)

`Replicated<F>` is the ordered pair of additive shares a helper holds.  Its
arithmetic impls are outside the given sources; they are modelled from the
spec (coordinate-wise operations, and the canonical sharing of one). -/

/-- `helpers::Role`: the 1-of-3 helper identity tag. -/
inductive Role where
  | H1
  | H2
  | H3
deriving DecidableEq

/-- `Replicated<F>` / `ReplicatedSecretSharing<F>`: the ordered pair
`(a_i, a_{i+1})` of additive shares held by one helper. -/
structure Replicated (F : Type) where
  fst : F
  snd : F
deriving DecidableEq

/-- Modelled from the spec: replicated addition is coordinate-wise (the
`Replicated` arithmetic impls are not among the given sources). -/
def Replicated.add [Add F] (x y : Replicated F) : Replicated F :=
  ⟨x.fst + y.fst, x.snd + y.snd⟩

/-- Modelled from the spec: replicated subtraction is coordinate-wise. -/
def Replicated.sub [Sub F] (x y : Replicated F) : Replicated F :=
  ⟨x.fst - y.fst, x.snd - y.snd⟩

/-- Modelled from the spec: replicated negation is coordinate-wise. -/
def Replicated.neg [Neg F] (x : Replicated F) : Replicated F :=
  ⟨-x.fst, -x.snd⟩

/-- Modelled from the spec: scalar multiplication by a public field element
is coordinate-wise. -/
def Replicated.mulScalar [Mul F] (x : Replicated F) (k : F) : Replicated F :=
  ⟨x.fst * k, x.snd * k⟩

/-- Modelled from the spec: `Replicated::one(role)` is `(1,0)`, `(0,0)`,
`(0,1)` for H1, H2, H3, a valid replicated sharing of the constant 1. -/
def Replicated.one [Zero F] [One F] : Role → Replicated F
  | Role.H1 => ⟨1, 0⟩
  | Role.H2 => ⟨0, 0⟩
  | Role.H3 => ⟨0, 1⟩

/-- `MaliciousReplicated<F>` (malicious_replicated.rs lines 10-14): the pair
of the data share and its randomized companion. -/
structure MaliciousReplicated (F : Type) where
  x : Replicated F
  rx : Replicated F
deriving DecidableEq

/-- `MaliciousReplicated::one` (malicious_replicated.rs lines 44-46). -/
def MaliciousReplicated.one [Zero F] [One F] (helper_role : Role) (r_share : Replicated F) :
    MaliciousReplicated F :=
  ⟨Replicated.one helper_role, r_share⟩

/-- `Add for &MaliciousReplicated` (malicious_replicated.rs lines 49-58). -/
def MaliciousReplicated.add [Add F] (a b : MaliciousReplicated F) : MaliciousReplicated F :=
  ⟨a.x.add b.x, a.rx.add b.rx⟩

/-- `Sub for &MaliciousReplicated` (malicious_replicated.rs lines 87-96). -/
def MaliciousReplicated.sub [Sub F] (a b : MaliciousReplicated F) : MaliciousReplicated F :=
  ⟨a.x.sub b.x, a.rx.sub b.rx⟩

/-- `Neg for MaliciousReplicated` (malicious_replicated.rs lines 76-85). -/
def MaliciousReplicated.neg [Neg F] (a : MaliciousReplicated F) : MaliciousReplicated F :=
  ⟨a.x.neg, a.rx.neg⟩

/-- `Mul<F> for MaliciousReplicated` (malicious_replicated.rs lines 113-122):
scalar multiplication by a public field element. -/
def MaliciousReplicated.mulScalar [Mul F] (a : MaliciousReplicated F) (k : F) :
    MaliciousReplicated F :=
  ⟨a.x.mulScalar k, a.rx.mulScalar k⟩

/-- `share` (test_fixture/sharing.rs lines 7-17).  The rng is modelled by the
two `u128` draws `r1, r2` it produces, and `F::from(u128)` by the supplied
`fromU`. -/
def share [Field F] (fromU : Nat → F) (input : F) (r1 r2 : Nat) : List (Replicated F) :=
  let x1 := fromU r1
  let x2 := fromU r2
  let x3 := input - (x1 + x2)
  [⟨x1, x2⟩, ⟨x2, x3⟩, ⟨x3, x1⟩]

/-- `validate_and_reconstruct` (test_fixture/sharing.rs lines 23-36): `none`
models the `assert_eq!` panic on an invalid sharing; otherwise the sum of
the first coordinates. -/
def validate_and_reconstruct [Field F] [DecidableEq F] (s1 s2 s3 : Replicated F) : Option F :=
  if s1.fst + s2.fst + s3.fst = s1.snd + s2.snd + s3.snd then
    some (s1.fst + s2.fst + s3.fst)
  else none

/-! ## Bit-wise AND over bit-decomposed vectors
(ipa-core/src/protocol/boolean/and.rs)

`bool_and_8_bit` is orchestration: it asserts the length preconditions and
then runs one multiplication per bit in a context narrowed to `Bit(i)`.
The context and the multiplication protocol are external to this file, so
the context is modelled by its step path and the multiplication by an
abstract function of the narrowed path and the two shares. -/

/-- `MAX_BITS` (and.rs line 12). -/
def MAX_BITS : Nat := 8

/-- Modelled from the spec: `Context::narrow` appends the child step's path
to the parent's step path, separated by `/`. -/
def narrow (ctx childStep : String) : String := ctx ++ "/" ++ childStep

/-- Modelled from the spec: the name of the dynamic child step `Bit(i)` of
`BoolAndStep` (and.rs lines 14-18), one distinct child per bit index. -/
def BoolAndStep.Bit (i : Nat) : String := "bit" ++ toString i

/-- `bool_and_8_bit` (and.rs lines 35-63).  `mul` is the replicated
multiplication protocol `a.multiply(b, ctx, record_id)` as a function of
the narrowed context path; `none` models the `assert_eq!`/`assert!`
panics, which fire before any multiplication starts. -/
def bool_and_8_bit (mul : String → α → α → α) (ctx : String) (a b : List α) :
    Option (List α) :=
  if a.length = b.length then
    if a.length ≤ MAX_BITS then
      some ((List.zip a b).enum.map fun p => mul (narrow ctx (BoolAndStep.Bit p.1)) p.2.1 p.2.2)
    else none
  else none

/-! ## Aggregated output row (src/protocol/attribution/input.rs)

`MCAggregateCreditOutputRow<F, T, BK>` is generic over the share type `T`
(with fixed serialized size `S`) and the breakdown-key bit width
`B = BK::BITS`.  The share serialization is the `Serializable` impl of `T`,
external to this file; it is passed in as `ser`/`deser` together with its
size `S`. -/

/-- `MCAggregateCreditOutputRow` (input.rs lines 203-207). -/
structure MCAggregateCreditOutputRow (T : Type) where
  breakdown_key : List T
  credit : T
deriving DecidableEq

/-- `MCAggregateCreditOutputRow::SIZE` (input.rs line 214): `(B + 1) * S`. -/
def rowSize (B S : Nat) : Nat := (B + 1) * S

/-- `MCAggregateCreditOutputRow::serialize` (input.rs lines 228-243) given a
caller buffer of length `bufLen`: `none` models the two asserts; otherwise
the fully overwritten buffer, `B` share-sized blocks of the breakdown key
followed by the serialized credit. -/
def MCAggregateCreditOutputRow.serialize (B S : Nat) (ser : T → List Nat)
    (row : MCAggregateCreditOutputRow T) (bufLen : Nat) : Option (List Nat) :=
  if row.breakdown_key.length = B then
    if bufLen = rowSize B S then
      some ((row.breakdown_key.map ser).flatten ++ ser row.credit)
    else none
  else none

/-- `MCAggregateCreditOutputRow::deserialize` (input.rs lines 249-262):
`none` models the buffer-length assert; block `i` is read from bytes
`[S*i, S*(i+1))` and the credit from the remaining `S` bytes. -/
def MCAggregateCreditOutputRow.deserialize (B S : Nat) (deser : List Nat → T)
    (buf : List Nat) : Option (MCAggregateCreditOutputRow T) :=
  if buf.length = rowSize B S then
    some ⟨(List.range B).map fun i => deser ((buf.drop (S * i)).take S),
      deser (buf.drop (S * B))⟩
  else none

/-- `Fp31` is the prime field of order 31 used by the tests; witnesses
instantiate the generic share theorems at `ZMod 31`. -/
instance fact_prime_31 : Fact (Nat.Prime 31) := ⟨by norm_num⟩

/-- Invariant of the single-pass tree construction: for every depth
`e ≤ d0` (the depth of the current `last` node), `A e` is the index of the
most recently added node of depth `e`, and these indices form the ancestor
chain of `last`. -/
structure TreeInv (nodes : List TreeNode) (last d0 : Nat) (A : Nat → Nat) : Prop where
  last_eq : A d0 = last
  depth_at : ∀ e, e ≤ d0 → ∃ nd, nodes[A e]? = some nd ∧ nd.data.depth = e
  parent_at : ∀ e, e + 1 ≤ d0 → ∃ nd, nodes[A (e + 1)]? = some nd ∧ nd.parent = some (A e)
  recent : ∀ e, e ≤ d0 → ∀ j nd, nodes[j]? = some nd → nd.data.depth = e → j ≤ A e

/-! # Theorems -/

/-! ## Modular exponentiation and primality of the Fp25519 order -/

theorem mod_mul_mod_right (x b m : Nat) : x % m * b % m = x * b % m := by
  rw [Nat.mul_mod, Nat.mod_mod_of_dvd x dvd_rfl, ← Nat.mul_mod]

theorem powModAux_correct (m : Nat) (fuel : Nat) :
    ∀ b e, e < 2 ^ fuel → powModAux m fuel b e = b ^ e % m := by
  induction fuel with
  | zero => intro b e he; interval_cases e; simp [powModAux]
  | succ n ih =>
    intro b e he
    rw [powModAux]
    by_cases he0 : e = 0
    · simp [he0]
    · simp only [he0, if_false]
      have h2 : e / 2 < 2 ^ n := by
        rw [Nat.div_lt_iff_lt_mul (by norm_num)]
        calc e < 2 ^ (n + 1) := he
        _ = 2 ^ n * 2 := by ring
      have hr := ih (b * b % m) (e / 2) h2
      have hbb : (b * b % m) ^ (e / 2) % m = (b * b) ^ (e / 2) % m :=
        (Nat.pow_mod (b * b) (e / 2) m).symm
      have hsplit : b ^ e = (b * b) ^ (e / 2) * b ^ (e % 2) := by
        have h1 : b * b = b ^ 2 := by ring
        rw [h1, ← pow_mul, ← pow_add, Nat.div_add_mod]
      by_cases hodd : e % 2 = 1
      · simp only [hodd, if_true]
        rw [hr, hbb, mod_mul_mod_right, hsplit, hodd, pow_one]
      · simp only [hodd, if_false]
        have h0 : e % 2 = 0 := (Nat.mod_two_eq_zero_or_one e).resolve_right hodd
        rw [hr, hbb, hsplit, h0, pow_zero, mul_one]

theorem powMod_correct (m b e : Nat) (he : e < 2 ^ 300) : powMod m b e = b ^ e % m :=
  powModAux_correct m 300 b e he

theorem powMod_eq_one_iff (p a e : Nat) (hp : 2 ≤ p) (he : e < 2 ^ 300) :
    powMod p a e = 1 ↔ ((a : ZMod p)) ^ e = 1 := by
  rw [powMod_correct p a e he, ← Nat.cast_pow, ← @Nat.cast_one (ZMod p) _,
    ZMod.natCast_eq_natCast_iff', Nat.mod_eq_of_lt (show 1 < p by omega)]

theorem pratt_certificate (p a : Nat) (qs : List Nat) (hp : 2 ≤ p) (hsize : p < 2 ^ 300)
    (hprod : qs.prod = p - 1)
    (hq : ∀ q ∈ qs, Nat.Prime q)
    (ha : powMod p a (p - 1) = 1)
    (hqs : ∀ q ∈ qs, powMod p a ((p - 1) / q) ≠ 1) : p.Prime := by
  apply lucas_primality p (a : ZMod p)
  · exact (powMod_eq_one_iff p a (p - 1) hp (by omega)).1 ha
  · intro q hq' hdvd hcontra
    have hmem : q ∈ qs := by
      apply mem_list_primes_of_dvd_prod hq'.prime
      · intro r hr
        exact (hq r hr).prime
      · rw [hprod]
        exact hdvd
    have hlt : (p - 1) / q < 2 ^ 300 := lt_of_le_of_lt (Nat.div_le_self _ _) (by omega)
    exact hqs q hmem ((powMod_eq_one_iff p a ((p - 1) / q) hp hlt).2 hcontra)
theorem prime_2 : Nat.Prime 2 := by norm_num

theorem prime_3 : Nat.Prime 3 := by norm_num

theorem prime_5 : Nat.Prime 5 := by norm_num

theorem prime_7 : Nat.Prime 7 := by norm_num

theorem prime_11 : Nat.Prime 11 := by norm_num

theorem prime_13 : Nat.Prime 13 := by norm_num

theorem prime_17 : Nat.Prime 17 := by norm_num

theorem prime_19 : Nat.Prime 19 := by norm_num

theorem prime_23 : Nat.Prime 23 := by norm_num

theorem prime_41 : Nat.Prime 41 := by norm_num

theorem prime_43 : Nat.Prime 43 := by norm_num

theorem prime_47 : Nat.Prime 47 := by norm_num

theorem prime_67 : Nat.Prime 67 := by norm_num

theorem prime_73 : Nat.Prime 73 := by norm_num

theorem prime_79 : Nat.Prime 79 := by norm_num

theorem prime_113 : Nat.Prime 113 :=
  pratt_certificate 113 3 [2, 2, 2, 2, 7] (by decide) (by decide) (by decide)
    (by intro q hq; fin_cases hq <;> [exact prime_2; exact prime_2; exact prime_2; exact prime_2; exact prime_7])
    (by decide) (by decide)

theorem prime_269 : Nat.Prime 269 :=
  pratt_certificate 269 2 [2, 2, 67] (by decide) (by decide) (by decide)
    (by intro q hq; fin_cases hq <;> [exact prime_2; exact prime_2; exact prime_67])
    (by decide) (by decide)

theorem prime_307 : Nat.Prime 307 :=
  pratt_certificate 307 5 [2, 3, 3, 17] (by decide) (by decide) (by decide)
    (by intro q hq; fin_cases hq <;> [exact prime_2; exact prime_3; exact prime_3; exact prime_17])
    (by decide) (by decide)

theorem prime_1361 : Nat.Prime 1361 :=
  pratt_certificate 1361 3 [2, 2, 2, 2, 5, 17] (by decide) (by decide) (by decide)
    (by intro q hq; fin_cases hq <;> [exact prime_2; exact prime_2; exact prime_2; exact prime_2; exact prime_5; exact prime_17])
    (by decide) (by decide)

theorem prime_1723 : Nat.Prime 1723 :=
  pratt_certificate 1723 3 [2, 3, 7, 41] (by decide) (by decide) (by decide)
    (by intro q hq; fin_cases hq <;> [exact prime_2; exact prime_3; exact prime_7; exact prime_41])
    (by decide) (by decide)

theorem prime_2551 : Nat.Prime 2551 :=
  pratt_certificate 2551 6 [2, 3, 5, 5, 17] (by decide) (by decide) (by decide)
    (by intro q hq; fin_cases hq <;> [exact prime_2; exact prime_3; exact prime_5; exact prime_5; exact prime_17])
    (by decide) (by decide)

theorem prime_2851 : Nat.Prime 2851 :=
  pratt_certificate 2851 2 [2, 3, 5, 5, 19] (by decide) (by decide) (by decide)
    (by intro q hq; fin_cases hq <;> [exact prime_2; exact prime_3; exact prime_5; exact prime_5; exact prime_19])
    (by decide) (by decide)

theorem prime_2939 : Nat.Prime 2939 :=
  pratt_certificate 2939 2 [2, 13, 113] (by decide) (by decide) (by decide)
    (by intro q hq; fin_cases hq <;> [exact prime_2; exact prime_13; exact prime_113])
    (by decide) (by decide)

theorem prime_3797 : Nat.Prime 3797 :=
  pratt_certificate 3797 2 [2, 2, 13, 73] (by decide) (by decide) (by decide)
    (by intro q hq; fin_cases hq <;> [exact prime_2; exact prime_2; exact prime_13; exact prime_73])
    (by decide) (by decide)

theorem prime_5879 : Nat.Prime 5879 :=
  pratt_certificate 5879 11 [2, 2939] (by decide) (by decide) (by decide)
    (by intro q hq; fin_cases hq <;> [exact prime_2; exact prime_2939])
    (by decide) (by decide)

theorem prime_17231 : Nat.Prime 17231 :=
  pratt_certificate 17231 13 [2, 5, 1723] (by decide) (by decide) (by decide)
    (by intro q hq; fin_cases hq <;> [exact prime_2; exact prime_5; exact prime_1723])
    (by decide) (by decide)

theorem prime_22111 : Nat.Prime 22111 :=
  pratt_certificate 22111 6 [2, 3, 5, 11, 67] (by decide) (by decide) (by decide)
    (by intro q hq; fin_cases hq <;> [exact prime_2; exact prime_3; exact prime_5; exact prime_11; exact prime_67])
    (by decide) (by decide)

theorem prime_30703 : Nat.Prime 30703 :=
  pratt_certificate 30703 3 [2, 3, 7, 17, 43] (by decide) (by decide) (by decide)
    (by intro q hq; fin_cases hq <;> [exact prime_2; exact prime_3; exact prime_7; exact prime_17; exact prime_43])
    (by decide) (by decide)

theorem prime_34123 : Nat.Prime 34123 :=
  pratt_certificate 34123 2 [2, 3, 11, 11, 47] (by decide) (by decide) (by decide)
    (by intro q hq; fin_cases hq <;> [exact prime_2; exact prime_3; exact prime_11; exact prime_11; exact prime_47])
    (by decide) (by decide)

theorem prime_41081 : Nat.Prime 41081 :=
  pratt_certificate 41081 3 [2, 2, 2, 5, 13, 79] (by decide) (by decide) (by decide)
    (by intro q hq; fin_cases hq <;> [exact prime_2; exact prime_2; exact prime_2; exact prime_5; exact prime_13; exact prime_79])
    (by decide) (by decide)

theorem prime_82163 : Nat.Prime 82163 :=
  pratt_certificate 82163 2 [2, 41081] (by decide) (by decide) (by decide)
    (by intro q hq; fin_cases hq <;> [exact prime_2; exact prime_41081])
    (by decide) (by decide)

theorem prime_132667 : Nat.Prime 132667 :=
  pratt_certificate 132667 5 [2, 3, 22111] (by decide) (by decide) (by decide)
    (by intro q hq; fin_cases hq <;> [exact prime_2; exact prime_3; exact prime_22111])
    (by decide) (by decide)

theorem prime_137849 : Nat.Prime 137849 :=
  pratt_certificate 137849 3 [2, 2, 2, 17231] (by decide) (by decide) (by decide)
    (by intro q hq; fin_cases hq <;> [exact prime_2; exact prime_2; exact prime_2; exact prime_17231])
    (by decide) (by decide)

theorem prime_409477 : Nat.Prime 409477 :=
  pratt_certificate 409477 2 [2, 2, 3, 34123] (by decide) (by decide) (by decide)
    (by intro q hq; fin_cases hq <;> [exact prime_2; exact prime_2; exact prime_3; exact prime_34123])
    (by decide) (by decide)

theorem prime_531581 : Nat.Prime 531581 :=
  pratt_certificate 531581 2 [2, 2, 5, 7, 3797] (by decide) (by decide) (by decide)
    (by intro q hq; fin_cases hq <;> [exact prime_2; exact prime_2; exact prime_5; exact prime_7; exact prime_3797])
    (by decide) (by decide)

theorem prime_1224481 : Nat.Prime 1224481 :=
  pratt_certificate 1224481 13 [2, 2, 2, 2, 2, 3, 5, 2551] (by decide) (by decide) (by decide)
    (by intro q hq; fin_cases hq <;> [exact prime_2; exact prime_2; exact prime_2; exact prime_2; exact prime_2; exact prime_3; exact prime_5; exact prime_2551])
    (by decide) (by decide)

theorem prime_14741173 : Nat.Prime 14741173 :=
  pratt_certificate 14741173 2 [2, 2, 3, 3, 409477] (by decide) (by decide) (by decide)
    (by intro q hq; fin_cases hq <;> [exact prime_2; exact prime_2; exact prime_3; exact prime_3; exact prime_409477])
    (by decide) (by decide)

theorem prime_58964693 : Nat.Prime 58964693 :=
  pratt_certificate 58964693 2 [2, 2, 14741173] (by decide) (by decide) (by decide)
    (by intro q hq; fin_cases hq <;> [exact prime_2; exact prime_2; exact prime_14741173])
    (by decide) (by decide)

theorem prime_292386187 : Nat.Prime 292386187 :=
  pratt_certificate 292386187 2 [2, 3, 3, 3, 3, 307, 5879] (by decide) (by decide) (by decide)
    (by intro q hq; fin_cases hq <;> [exact prime_2; exact prime_3; exact prime_3; exact prime_3; exact prime_3; exact prime_307; exact prime_5879])
    (by decide) (by decide)

theorem prime_213441916511 : Nat.Prime 213441916511 :=
  pratt_certificate 213441916511 13 [2, 5, 73, 292386187] (by decide) (by decide) (by decide)
    (by intro q hq; fin_cases hq <;> [exact prime_2; exact prime_5; exact prime_73; exact prime_292386187])
    (by decide) (by decide)

theorem prime_1257559732178653 : Nat.Prime 1257559732178653 :=
  pratt_certificate 1257559732178653 2 [2, 2, 3, 7, 23, 531581, 1224481] (by decide) (by decide) (by decide)
    (by intro q hq; fin_cases hq <;> [exact prime_2; exact prime_2; exact prime_3; exact prime_7; exact prime_23; exact prime_531581; exact prime_1224481])
    (by decide) (by decide)

theorem prime_4434155615661930479 : Nat.Prime 4434155615661930479 :=
  pratt_certificate 4434155615661930479 17 [2, 41, 43, 1257559732178653] (by decide) (by decide) (by decide)
    (by intro q hq; fin_cases hq <;> [exact prime_2; exact prime_41; exact prime_43; exact prime_1257559732178653])
    (by decide) (by decide)

theorem prime_3044861653679985063343 : Nat.Prime 3044861653679985063343 :=
  pratt_certificate 3044861653679985063343 5 [2, 3, 11, 30703, 82163, 132667, 137849] (by decide) (by decide) (by decide)
    (by intro q hq; fin_cases hq <;> [exact prime_2; exact prime_3; exact prime_11; exact prime_30703; exact prime_82163; exact prime_132667; exact prime_137849])
    (by decide) (by decide)

theorem prime_172054593956031949258510691 : Nat.Prime 172054593956031949258510691 :=
  pratt_certificate 172054593956031949258510691 2 [2, 5, 1361, 2851, 4434155615661930479] (by decide) (by decide) (by decide)
    (by intro q hq; fin_cases hq <;> [exact prime_2; exact prime_5; exact prime_1361; exact prime_2851; exact prime_4434155615661930479])
    (by decide) (by decide)

theorem prime_198211423230930754013084525763697 : Nat.Prime 198211423230930754013084525763697 :=
  pratt_certificate 198211423230930754013084525763697 5 [2, 2, 2, 2, 3, 23, 58964693, 3044861653679985063343] (by decide) (by decide) (by decide)
    (by intro q hq; fin_cases hq <;> [exact prime_2; exact prime_2; exact prime_2; exact prime_2; exact prime_3; exact prime_23; exact prime_58964693; exact prime_3044861653679985063343])
    (by decide) (by decide)

theorem prime_19757330305831588566944191468367130476339 : Nat.Prime 19757330305831588566944191468367130476339 :=
  pratt_certificate 19757330305831588566944191468367130476339 2 [2, 269, 213441916511, 172054593956031949258510691] (by decide) (by decide) (by decide)
    (by intro q hq; fin_cases hq <;> [exact prime_2; exact prime_269; exact prime_213441916511; exact prime_172054593956031949258510691])
    (by decide) (by decide)

theorem prime_276602624281642239937218680557139826668747 : Nat.Prime 276602624281642239937218680557139826668747 :=
  pratt_certificate 276602624281642239937218680557139826668747 2 [2, 7, 19757330305831588566944191468367130476339] (by decide) (by decide) (by decide)
    (by intro q hq; fin_cases hq <;> [exact prime_2; exact prime_7; exact prime_19757330305831588566944191468367130476339])
    (by decide) (by decide)

theorem prime_7237005577332262213973186563042994240857116359379907606001950938285454250989 : Nat.Prime 7237005577332262213973186563042994240857116359379907606001950938285454250989 :=
  pratt_certificate 7237005577332262213973186563042994240857116359379907606001950938285454250989 2 [2, 2, 3, 11, 198211423230930754013084525763697, 276602624281642239937218680557139826668747] (by decide) (by decide) (by decide)
    (by intro q hq; fin_cases hq <;> [exact prime_2; exact prime_2; exact prime_3; exact prime_11; exact prime_198211423230930754013084525763697; exact prime_276602624281642239937218680557139826668747])
    (by decide) (by decide)
/-- The order of the Curve25519 scalar field is prime. -/
theorem p25519_prime : Nat.Prime p25519 := by
  have h : p25519 =
      7237005577332262213973186563042994240857116359379907606001950938285454250989 := by
    norm_num [p25519]
  rw [h]
  exact prime_7237005577332262213973186563042994240857116359379907606001950938285454250989

/-! ## Fp25519 serialization and inversion (claims C7, C8) -/

theorem mod_mul_base (v M : Nat) (hM : 0 < M) :
    v % (256 * M) = v % 256 + 256 * (v / 256 % M) := by
  have hv : v = 256 * (v / 256) + v % 256 := (Nat.div_add_mod v 256).symm
  have h1 : (256 * (v / 256) + v % 256) % (256 * M)
      = (256 * (v / 256) % (256 * M) + v % 256 % (256 * M)) % (256 * M) := Nat.add_mod _ _ _
  have h2 : 256 * (v / 256) % (256 * M) = 256 * (v / 256 % M) := Nat.mul_mod_mul_left _ _ _
  have h3 : v % 256 % (256 * M) = v % 256 := by
    apply Nat.mod_eq_of_lt
    have hr : v % 256 < 256 := Nat.mod_lt v (by norm_num)
    nlinarith
  have h4 : 256 * (v / 256 % M) + v % 256 < 256 * M := by
    have hq : v / 256 % M < M := Nat.mod_lt _ hM
    have hr : v % 256 < 256 := Nat.mod_lt v (by norm_num)
    nlinarith
  calc v % (256 * M) = (256 * (v / 256) + v % 256) % (256 * M) := by rw [← hv]
    _ = (256 * (v / 256 % M) + v % 256 % (256 * M)) % (256 * M) := by rw [h1, h2]
    _ = (256 * (v / 256 % M) + v % 256) % (256 * M) := by rw [h3]
    _ = 256 * (v / 256 % M) + v % 256 := Nat.mod_eq_of_lt h4
    _ = v % 256 + 256 * (v / 256 % M) := by ring

theorem leVal_leBytes (n : Nat) : ∀ v, leVal (leBytes n v) = v % 256 ^ n := by
  induction n with
  | zero => intro v; simp [leBytes, leVal, Nat.mod_one]
  | succ k ih =>
    intro v
    rw [leBytes, leVal, ih (v / 256), pow_succ']
    exact (mod_mul_base v (256 ^ k) (pow_pos (by norm_num) k)).symm

/-- Claim C7: for every Fp25519 element, deserialize ∘ serialize is the
identity; and deserializing any 32-byte buffer succeeds (the error type is
uninhabited) and yields the buffer's little-endian value reduced modulo
the group order, an element of `[0, p)`. -/
theorem c7_fp25519_serde :
    (∀ a : Fp25519, Fp25519.deserialize (Fp25519.serialize a) = Except.ok a) ∧
    (∀ buf : List Nat, buf.length = 32 → (∀ b ∈ buf, b < 256) →
      ∃ v : Fp25519, Fp25519.deserialize buf = Except.ok v ∧
        v.val = leVal buf % p25519 ∧ v.val < p25519) := by
  constructor
  · intro a
    have hlt : a.val < 256 ^ 32 := by
      have h1 : a.val < p25519 := ZMod.val_lt a
      have h2 : p25519 < 256 ^ 32 := by norm_num [p25519]
      omega
    rw [Fp25519.deserialize, Fp25519.serialize, leVal_leBytes, Nat.mod_eq_of_lt hlt,
      ZMod.natCast_rightInverse a]
  · intro buf _ _
    refine ⟨(leVal buf : Nat), rfl, ZMod.val_natCast (leVal buf), ?_⟩
    exact ZMod.val_lt _

/-- Witness for C7: the all-zero 32-byte buffer satisfies the hypotheses of
the second part. -/
theorem c7_fp25519_serde_witness :
    ((List.replicate 32 0 : List Nat).length = 32 ∧
      ∀ b ∈ (List.replicate 32 0 : List Nat), b < 256) ∧
    (∃ v : Fp25519, Fp25519.deserialize (List.replicate 32 0) = Except.ok v ∧
      v.val = leVal (List.replicate 32 0) % p25519 ∧ v.val < p25519) :=
  ⟨⟨by decide, by decide⟩, c7_fp25519_serde.2 (List.replicate 32 0) (by decide) (by decide)⟩

/-- Claim C8: `Fp25519::invert` panics (models as `none`) exactly when the
argument is ZERO; for every nonzero `a`, the inversion succeeds with
`a * a⁻¹ = ONE`, so under the precondition `a ≠ ZERO` the panic branch is
unreachable. -/
theorem c8_fp25519_invert :
    Fp25519.invert 0 = none ∧
    ∀ a : Fp25519, a ≠ 0 → Fp25519.invert a = some a⁻¹ ∧ a * a⁻¹ = 1 := by
  constructor
  · simp [Fp25519.invert]
  · intro a ha
    refine ⟨by simp [Fp25519.invert, ha], ?_⟩
    have hval : a.val ≠ 0 := by rwa [Ne, ZMod.val_eq_zero]
    have hvlt : a.val < p25519 := ZMod.val_lt a
    have hnd : ¬ p25519 ∣ a.val := fun hdvd =>
      absurd (Nat.le_of_dvd (Nat.pos_of_ne_zero hval) hdvd) (not_le.2 hvlt)
    have hco : Nat.Coprime p25519 a.val :=
      (Nat.Prime.coprime_iff_not_dvd p25519_prime).2 hnd
    have hgcd : Nat.gcd a.val p25519 = 1 := by
      rw [Nat.gcd_comm]
      exact hco
    rw [ZMod.mul_inv_eq_gcd, hgcd, Nat.cast_one]

/-- Witness for C8 at the concrete nonzero element 2. -/
theorem c8_fp25519_invert_witness :
    (2 : Fp25519) ≠ 0 ∧
      (Fp25519.invert 2 = some (2 : Fp25519)⁻¹ ∧ (2 : Fp25519) * (2 : Fp25519)⁻¹ = 1) :=
  ⟨by decide, c8_fp25519_invert.2 2 (by decide)⟩

/-! ## Gateway buffer state machine (claims C1, C2, C10) -/

/-- Claim C1: every (channel, record) buffer slot follows exactly the
specified state machine.  A receive request on an absent slot inserts
Requested(sink); a message on an absent slot inserts Received(payload); a
message at a Requested slot removes the entry and delivers to the stored
sink (logging and discarding when the sink was dropped); a receive request
at a Received slot removes the entry and delivers the buffered payload
(same dropped-sink handling); a receive request at a Requested slot and a
message at a Received slot are fatal (modelled as `none`). -/
theorem c1_slot_state_machine :
    (∀ (buf : MessageBuffer) (rid : Nat) (s : Sink), findRecord buf rid = none →
      buf.receive_request rid s =
        some (insertRecord buf rid (BufItem.Requested s), Effect.buffered)) ∧
    (∀ (buf : MessageBuffer) (rid : Nat) (p : Payload), findRecord buf rid = none →
      buf.receive_message ⟨rid, p⟩ =
        some (insertRecord buf rid (BufItem.Received p), Effect.buffered)) ∧
    (∀ (buf : MessageBuffer) (rid : Nat) (s : Sink) (p : Payload),
      findRecord buf rid = some (BufItem.Requested s) →
      buf.receive_message ⟨rid, p⟩ = some (eraseRecord buf rid, sendToSink s p)) ∧
    (∀ (buf : MessageBuffer) (rid : Nat) (s : Sink) (p : Payload),
      findRecord buf rid = some (BufItem.Received p) →
      buf.receive_request rid s = some (eraseRecord buf rid, sendToSink s p)) ∧
    (∀ (buf : MessageBuffer) (rid : Nat) (s s' : Sink),
      findRecord buf rid = some (BufItem.Requested s) →
      buf.receive_request rid s' = none) ∧
    (∀ (buf : MessageBuffer) (rid : Nat) (p p' : Payload),
      findRecord buf rid = some (BufItem.Received p) →
      buf.receive_message ⟨rid, p'⟩ = none) := by
  refine ⟨?_, ?_, ?_, ?_, ?_, ?_⟩ <;> intros <;>
    simp_all [MessageBuffer.receive_request, MessageBuffer.receive_message]

/-- Witness for C1: each of the six transitions exercised on a concrete
one-slot buffer. -/
theorem c1_slot_state_machine_witness :
    (findRecord [] 0 = none ∧
      MessageBuffer.receive_request [] 0 ⟨1, true⟩ =
        some ([(0, BufItem.Requested ⟨1, true⟩)], Effect.buffered)) ∧
    (findRecord [] 0 = none ∧
      MessageBuffer.receive_message [] ⟨0, [7]⟩ =
        some ([(0, BufItem.Received [7])], Effect.buffered)) ∧
    (findRecord [(0, BufItem.Requested ⟨1, true⟩)] 0 = some (BufItem.Requested ⟨1, true⟩) ∧
      MessageBuffer.receive_message [(0, BufItem.Requested ⟨1, true⟩)] ⟨0, [7]⟩ =
        some ([], Effect.delivered ⟨1, true⟩ [7])) ∧
    (findRecord [(0, BufItem.Received [7])] 0 = some (BufItem.Received [7]) ∧
      MessageBuffer.receive_request [(0, BufItem.Received [7])] 0 ⟨1, true⟩ =
        some ([], Effect.delivered ⟨1, true⟩ [7])) ∧
    (findRecord [(0, BufItem.Requested ⟨1, true⟩)] 0 = some (BufItem.Requested ⟨1, true⟩) ∧
      MessageBuffer.receive_request [(0, BufItem.Requested ⟨1, true⟩)] 0 ⟨2, true⟩ = none) ∧
    (findRecord [(0, BufItem.Received [7])] 0 = some (BufItem.Received [7]) ∧
      MessageBuffer.receive_message [(0, BufItem.Received [7])] ⟨0, [9]⟩ = none) := by
  refine ⟨⟨by decide, ?_⟩, ⟨by decide, ?_⟩, ⟨by decide, ?_⟩, ⟨by decide, ?_⟩,
    ⟨by decide, ?_⟩, ⟨by decide, ?_⟩⟩
  · exact c1_slot_state_machine.1 [] 0 ⟨1, true⟩ (by decide)
  · exact c1_slot_state_machine.2.1 [] 0 [7] (by decide)
  · exact c1_slot_state_machine.2.2.1 [(0, BufItem.Requested ⟨1, true⟩)] 0 ⟨1, true⟩ [7]
      (by decide)
  · exact c1_slot_state_machine.2.2.2.1 [(0, BufItem.Received [7])] 0 ⟨1, true⟩ [7] (by decide)
  · exact c1_slot_state_machine.2.2.2.2.1 [(0, BufItem.Requested ⟨1, true⟩)] 0 ⟨1, true⟩ ⟨2, true⟩
      (by decide)
  · exact c1_slot_state_machine.2.2.2.2.2 [(0, BufItem.Received [7])] 0 [7] [9] (by decide)

/-- Counterexample to claim C2 as stated: message for record 0 arrives on an
empty channel buffer, the matching receive request rendezvouses and removes
the entry, and a second receive request for the now-absent key is accepted
(it inserts a fresh Requested entry) instead of being a fatal error. -/
theorem c2_counterexample :
    MessageBuffer.receive_message [] ⟨0, [42]⟩ =
      some ([(0, BufItem.Received [42])], Effect.buffered) ∧
    MessageBuffer.receive_request [(0, BufItem.Received [42])] 0 ⟨1, true⟩ =
      some ([], Effect.delivered ⟨1, true⟩ [42]) ∧
    MessageBuffer.receive_request [] 0 ⟨2, true⟩ =
      some ([(0, BufItem.Requested ⟨2, true⟩)], Effect.buffered) ∧
    MessageBuffer.receive_request [] 0 ⟨2, true⟩ ≠ none := by
  refine ⟨by decide, by decide, by decide, by decide⟩

/-- Claim C2 amended: after a rendezvous has removed the (channel, record)
entry, a later receive request for that key is accepted again and inserts
Requested(sink); a receive request is fatal only while the slot currently
holds an outstanding Requested entry, as a further duplicate then shows. -/
theorem c2_second_receive_after_rendezvous (buf : MessageBuffer) (rid : Nat) (s s' : Sink)
    (h : findRecord buf rid = none) :
    buf.receive_request rid s =
      some (insertRecord buf rid (BufItem.Requested s), Effect.buffered) ∧
    (insertRecord buf rid (BufItem.Requested s)).receive_request rid s' = none := by
  constructor
  · simp [MessageBuffer.receive_request, h]
  · simp [MessageBuffer.receive_request, insertRecord, findRecord]

/-- Witness for the amended C2 on the concrete post-rendezvous (empty)
buffer. -/
theorem c2_second_receive_after_rendezvous_witness :
    findRecord [] 0 = none ∧
    (MessageBuffer.receive_request [] 0 ⟨3, true⟩ =
      some ([(0, BufItem.Requested ⟨3, true⟩)], Effect.buffered) ∧
    MessageBuffer.receive_request [(0, BufItem.Requested ⟨3, true⟩)] 0 ⟨4, true⟩ = none) :=
  ⟨by decide, c2_second_receive_after_rendezvous [] 0 ⟨3, true⟩ ⟨4, true⟩ (by decide)⟩

/-- Claim C10: a receive request that finds a Received payload but whose
oneshot receiver was already dropped removes the entry, logs a warning and
discards the payload without a fatal error — the same dropped-sink
tolerance as on the message-arrival path. -/
theorem c10_dropped_sink_receive_request (buf : MessageBuffer) (rid : Nat) (p : Payload)
    (s : Sink) (hbuf : findRecord buf rid = some (BufItem.Received p))
    (hdead : s.alive = false) :
    buf.receive_request rid s = some (eraseRecord buf rid, Effect.warned) := by
  simp [MessageBuffer.receive_request, hbuf, sendToSink, hdead]

/-- Witness for C10 on a concrete one-slot buffer and a dropped sink. -/
theorem c10_dropped_sink_receive_request_witness :
    findRecord [(0, BufItem.Received [5])] 0 = some (BufItem.Received [5]) ∧
    (Sink.mk 9 false).alive = false ∧
    MessageBuffer.receive_request [(0, BufItem.Received [5])] 0 ⟨9, false⟩ =
      some ([], Effect.warned) :=
  ⟨by decide, by decide,
    c10_dropped_sink_receive_request [(0, BufItem.Received [5])] 0 [5] ⟨9, false⟩
      (by decide) (by decide)⟩

/-! ## Bit-wise AND orchestration (claim C4) -/

/-- Claim C4: for two aligned bit-decomposed vectors of equal length
`n ≤ 8`, `bool_and_8_bit` returns the `n` shares obtained by running the
multiplication protocol on the `i`-th pair in the context narrowed to the
child step `Bit(i)`, in input order; when the lengths differ or exceed 8
it panics at call time (the result is `none` for every multiplication
protocol, i.e. before any interaction). -/
theorem c4_bool_and_8_bit (α : Type) (mul : String → α → α → α) (ctx : String)
    (a b : List α) :
    (a.length = b.length → a.length ≤ 8 →
      ∃ out, bool_and_8_bit mul ctx a b = some out ∧
        out.length = a.length ∧
        ∀ i x y, a[i]? = some x → b[i]? = some y →
          out[i]? = some (mul (narrow ctx (BoolAndStep.Bit i)) x y)) ∧
    (¬(a.length = b.length ∧ a.length ≤ 8) →
      ∀ mul' : String → α → α → α, bool_and_8_bit mul' ctx a b = none) := by
  constructor
  · intro hlen hle
    refine ⟨(List.zip a b).enum.map fun p => mul (narrow ctx (BoolAndStep.Bit p.1)) p.2.1 p.2.2,
      ?_, ?_, ?_⟩
    · simp only [bool_and_8_bit, MAX_BITS]
      rw [if_pos hlen, if_pos hle]
    · simp [List.enum_length, List.length_zip, hlen]
    · intro i x y hx hy
      have hz : (List.zip a b)[i]? = some (x, y) := by
        rw [List.getElem?_zip_eq_some]
        exact ⟨hx, hy⟩
      simp [List.getElem?_map, List.getElem?_enum, hz]
  · intro h mul'
    rw [bool_and_8_bit]
    by_cases h1 : a.length = b.length
    · have h2 : ¬a.length ≤ 8 := fun hle => h ⟨h1, hle⟩
      simp only [MAX_BITS]
      rw [if_pos h1, if_neg h2]
    · simp [h1]

/-- Witness for C4 on concrete two-bit vectors (and the mismatched case). -/
theorem c4_bool_and_8_bit_witness :
    (([10, 20] : List Nat).length = [30, 40].length ∧ ([10, 20] : List Nat).length ≤ 8 ∧
      ∃ out, bool_and_8_bit (fun _ x y => x * y) "ctx" ([10, 20] : List Nat) [30, 40] =
          some out ∧
        out.length = ([10, 20] : List Nat).length ∧
        ∀ i x y, ([10, 20] : List Nat)[i]? = some x → ([30, 40] : List Nat)[i]? = some y →
          out[i]? = some ((fun _ x y => x * y) (narrow "ctx" (BoolAndStep.Bit i)) x y)) ∧
    (¬(([1] : List Nat).length = ([] : List Nat).length ∧ ([1] : List Nat).length ≤ 8) ∧
      ∀ mul' : String → Nat → Nat → Nat, bool_and_8_bit mul' "ctx" [1] [] = none) :=
  ⟨⟨by decide, by decide,
    (c4_bool_and_8_bit Nat (fun _ x y => x * y) "ctx" [10, 20] [30, 40]).1 (by decide)
      (by decide)⟩,
   ⟨by decide,
    (c4_bool_and_8_bit Nat (fun _ x y => x * y) "ctx" [1] []).2 (by decide)⟩⟩

/-! ## Replicated and malicious share arithmetic (claims C5, C6) -/

theorem vr_eq_some_iff (F : Type) [Field F] [DecidableEq F] (s1 s2 s3 : Replicated F) (v : F) :
    validate_and_reconstruct s1 s2 s3 = some v ↔
      s1.fst + s2.fst + s3.fst = s1.snd + s2.snd + s3.snd ∧
      s1.fst + s2.fst + s3.fst = v := by
  rw [validate_and_reconstruct]
  by_cases hc : s1.fst + s2.fst + s3.fst = s1.snd + s2.snd + s3.snd
  · rw [if_pos hc]
    constructor
    · intro h
      exact ⟨hc, Option.some.inj h⟩
    · intro h
      rw [h.2]
  · rw [if_neg hc]
    constructor
    · intro h
      simp at h
    · intro h
      exact absurd h.1 hc

/-- Claim C5: malicious add/sub/neg/scalar-mul act independently (pointwise)
on the x and rx components; valid sharings of both components stay
consistent under reconstruction; and `one(role, r_share)` is the pure pair
of the canonical replicated one for the role and the supplied `r_share`. -/
theorem c5_malicious_arithmetic (F : Type) [Field F] [DecidableEq F] :
    (∀ a b : MaliciousReplicated F,
      (a.add b).x = a.x.add b.x ∧ (a.add b).rx = a.rx.add b.rx ∧
      (a.sub b).x = a.x.sub b.x ∧ (a.sub b).rx = a.rx.sub b.rx) ∧
    (∀ a : MaliciousReplicated F, a.neg.x = a.x.neg ∧ a.neg.rx = a.rx.neg) ∧
    (∀ (a : MaliciousReplicated F) (k : F),
      (a.mulScalar k).x = a.x.mulScalar k ∧ (a.mulScalar k).rx = a.rx.mulScalar k) ∧
    (∀ (role : Role) (r_share : Replicated F),
      (MaliciousReplicated.one role r_share).x = Replicated.one role ∧
      (MaliciousReplicated.one role r_share).rx = r_share) ∧
    (∀ (a1 a2 a3 b1 b2 b3 : MaliciousReplicated F) (vx vrx wx wrx : F),
      validate_and_reconstruct a1.x a2.x a3.x = some vx →
      validate_and_reconstruct a1.rx a2.rx a3.rx = some vrx →
      validate_and_reconstruct b1.x b2.x b3.x = some wx →
      validate_and_reconstruct b1.rx b2.rx b3.rx = some wrx →
      validate_and_reconstruct (a1.add b1).x (a2.add b2).x (a3.add b3).x = some (vx + wx) ∧
      validate_and_reconstruct (a1.add b1).rx (a2.add b2).rx (a3.add b3).rx =
        some (vrx + wrx) ∧
      validate_and_reconstruct (a1.sub b1).x (a2.sub b2).x (a3.sub b3).x = some (vx - wx) ∧
      validate_and_reconstruct (a1.sub b1).rx (a2.sub b2).rx (a3.sub b3).rx =
        some (vrx - wrx)) ∧
    (∀ (a1 a2 a3 : MaliciousReplicated F) (vx vrx k : F),
      validate_and_reconstruct a1.x a2.x a3.x = some vx →
      validate_and_reconstruct a1.rx a2.rx a3.rx = some vrx →
      validate_and_reconstruct a1.neg.x a2.neg.x a3.neg.x = some (-vx) ∧
      validate_and_reconstruct a1.neg.rx a2.neg.rx a3.neg.rx = some (-vrx) ∧
      validate_and_reconstruct (a1.mulScalar k).x (a2.mulScalar k).x (a3.mulScalar k).x =
        some (vx * k) ∧
      validate_and_reconstruct (a1.mulScalar k).rx (a2.mulScalar k).rx (a3.mulScalar k).rx =
        some (vrx * k)) := by
  refine ⟨fun a b => ⟨rfl, rfl, rfl, rfl⟩, fun a => ⟨rfl, rfl⟩, fun a k => ⟨rfl, rfl⟩,
    fun role r_share => ⟨rfl, rfl⟩, ?_, ?_⟩
  · intro a1 a2 a3 b1 b2 b3 vx vrx wx wrx hx hrx hbx hbrx
    rw [vr_eq_some_iff] at hx hrx hbx hbrx
    refine ⟨?_, ?_, ?_, ?_⟩ <;> rw [vr_eq_some_iff] <;>
      simp only [MaliciousReplicated.add, MaliciousReplicated.sub, Replicated.add,
        Replicated.sub]
    · exact ⟨by linear_combination hx.1 + hbx.1, by linear_combination hx.2 + hbx.2⟩
    · exact ⟨by linear_combination hrx.1 + hbrx.1, by linear_combination hrx.2 + hbrx.2⟩
    · exact ⟨by linear_combination hx.1 - hbx.1, by linear_combination hx.2 - hbx.2⟩
    · exact ⟨by linear_combination hrx.1 - hbrx.1, by linear_combination hrx.2 - hbrx.2⟩
  · intro a1 a2 a3 vx vrx k hx hrx
    rw [vr_eq_some_iff] at hx hrx
    refine ⟨?_, ?_, ?_, ?_⟩ <;> rw [vr_eq_some_iff] <;>
      simp only [MaliciousReplicated.neg, MaliciousReplicated.mulScalar, Replicated.neg,
        Replicated.mulScalar]
    · exact ⟨by linear_combination -hx.1, by linear_combination -hx.2⟩
    · exact ⟨by linear_combination -hrx.1, by linear_combination -hrx.2⟩
    · exact ⟨by linear_combination k * hx.1, by linear_combination k * hx.2⟩
    · exact ⟨by linear_combination k * hrx.1, by linear_combination k * hrx.2⟩

/-- Witness for C5 over `Fp31 = ZMod 31` at concrete valid sharings (the
sharing of 5 with r-companion 10, and of 7 with r-companion 14, r = 2). -/
theorem c5_malicious_arithmetic_witness :
    (validate_and_reconstruct (F := ZMod 31) ⟨1, 2⟩ ⟨2, 2⟩ ⟨2, 1⟩ = some 5 ∧
      validate_and_reconstruct (F := ZMod 31) ⟨3, 4⟩ ⟨4, 3⟩ ⟨3, 3⟩ = some 10 ∧
      validate_and_reconstruct (F := ZMod 31) ⟨2, 2⟩ ⟨2, 3⟩ ⟨3, 2⟩ = some 7 ∧
      validate_and_reconstruct (F := ZMod 31) ⟨5, 5⟩ ⟨5, 4⟩ ⟨4, 5⟩ = some 14) ∧
    (validate_and_reconstruct (F := ZMod 31)
        ((MaliciousReplicated.mk ⟨1, 2⟩ ⟨3, 4⟩).add (MaliciousReplicated.mk ⟨2, 2⟩ ⟨5, 5⟩)).x
        ((MaliciousReplicated.mk ⟨2, 2⟩ ⟨4, 3⟩).add (MaliciousReplicated.mk ⟨2, 3⟩ ⟨5, 4⟩)).x
        ((MaliciousReplicated.mk ⟨2, 1⟩ ⟨3, 3⟩).add (MaliciousReplicated.mk ⟨3, 2⟩ ⟨4, 5⟩)).x
        = some (5 + 7) ∧
      validate_and_reconstruct (F := ZMod 31)
        ((MaliciousReplicated.mk ⟨1, 2⟩ ⟨3, 4⟩).add (MaliciousReplicated.mk ⟨2, 2⟩ ⟨5, 5⟩)).rx
        ((MaliciousReplicated.mk ⟨2, 2⟩ ⟨4, 3⟩).add (MaliciousReplicated.mk ⟨2, 3⟩ ⟨5, 4⟩)).rx
        ((MaliciousReplicated.mk ⟨2, 1⟩ ⟨3, 3⟩).add (MaliciousReplicated.mk ⟨3, 2⟩ ⟨4, 5⟩)).rx
        = some (10 + 14) ∧
      validate_and_reconstruct (F := ZMod 31)
        ((MaliciousReplicated.mk ⟨1, 2⟩ ⟨3, 4⟩).sub (MaliciousReplicated.mk ⟨2, 2⟩ ⟨5, 5⟩)).x
        ((MaliciousReplicated.mk ⟨2, 2⟩ ⟨4, 3⟩).sub (MaliciousReplicated.mk ⟨2, 3⟩ ⟨5, 4⟩)).x
        ((MaliciousReplicated.mk ⟨2, 1⟩ ⟨3, 3⟩).sub (MaliciousReplicated.mk ⟨3, 2⟩ ⟨4, 5⟩)).x
        = some (5 - 7) ∧
      validate_and_reconstruct (F := ZMod 31)
        ((MaliciousReplicated.mk ⟨1, 2⟩ ⟨3, 4⟩).sub (MaliciousReplicated.mk ⟨2, 2⟩ ⟨5, 5⟩)).rx
        ((MaliciousReplicated.mk ⟨2, 2⟩ ⟨4, 3⟩).sub (MaliciousReplicated.mk ⟨2, 3⟩ ⟨5, 4⟩)).rx
        ((MaliciousReplicated.mk ⟨2, 1⟩ ⟨3, 3⟩).sub (MaliciousReplicated.mk ⟨3, 2⟩ ⟨4, 5⟩)).rx
        = some (10 - 14)) :=
  ⟨⟨by decide, by decide, by decide, by decide⟩,
    (c5_malicious_arithmetic (ZMod 31)).2.2.2.2.1
      ⟨⟨1, 2⟩, ⟨3, 4⟩⟩ ⟨⟨2, 2⟩, ⟨4, 3⟩⟩ ⟨⟨2, 1⟩, ⟨3, 3⟩⟩
      ⟨⟨2, 2⟩, ⟨5, 5⟩⟩ ⟨⟨2, 3⟩, ⟨5, 4⟩⟩ ⟨⟨3, 2⟩, ⟨4, 5⟩⟩
      5 10 7 14 (by decide) (by decide) (by decide) (by decide)⟩

/-- Claim C6: `share(x, rng)` produces the cyclic covering
`[(x1,x2),(x2,x3),(x3,x1)]` with `x1 + x2 + x3 = x` (adjacent helpers agree
on one coordinate), and `validate_and_reconstruct` of the three shares
returns `x`. -/
theorem c6_share_reconstruct (F : Type) [Field F] [DecidableEq F]
    (fromU : Nat → F) (x : F) (r1 r2 : Nat) :
    ∃ x1 x2 x3 : F, x1 = fromU r1 ∧ x2 = fromU r2 ∧ x1 + x2 + x3 = x ∧
      share fromU x r1 r2 = [⟨x1, x2⟩, ⟨x2, x3⟩, ⟨x3, x1⟩] ∧
      validate_and_reconstruct (F := F) ⟨x1, x2⟩ ⟨x2, x3⟩ ⟨x3, x1⟩ = some x := by
  refine ⟨fromU r1, fromU r2, x - (fromU r1 + fromU r2), rfl, rfl, by ring, rfl, ?_⟩
  rw [vr_eq_some_iff]
  exact ⟨by ring, by ring⟩

/-- Witness for C6 over `Fp31 = ZMod 31` at `x = 9` with draws 3 and 8. -/
theorem c6_share_reconstruct_witness :
    ∃ x1 x2 x3 : ZMod 31, x1 = ((3 : Nat) : ZMod 31) ∧ x2 = ((8 : Nat) : ZMod 31) ∧
      x1 + x2 + x3 = 9 ∧
      share (fun n => (n : ZMod 31)) 9 3 8 = [⟨x1, x2⟩, ⟨x2, x3⟩, ⟨x3, x1⟩] ∧
      validate_and_reconstruct (F := ZMod 31) ⟨x1, x2⟩ ⟨x2, x3⟩ ⟨x3, x1⟩ = some 9 :=
  c6_share_reconstruct (ZMod 31) (fun n => (n : ZMod 31)) 9 3 8

/-! ## Aggregated output row layout (claim C9) -/

theorem flatten_length_of_uniform (S : Nat) :
    ∀ ls : List (List Nat), (∀ l ∈ ls, l.length = S) → ls.flatten.length = ls.length * S := by
  intro ls
  induction ls with
  | nil => intro _; simp
  | cons l rest ih =>
    intro h
    have hl : l.length = S := h l (List.mem_cons_self l rest)
    have hr := ih fun l' hl' => h l' (List.mem_cons_of_mem l hl')
    simp [List.flatten, hl, hr, Nat.succ_mul, Nat.add_comm]

theorem flatten_block_slice (S : Nat) :
    ∀ (ls : List (List Nat)) (rest : List Nat), (∀ l ∈ ls, l.length = S) →
      ∀ (i : Nat) (blk : List Nat), ls[i]? = some blk →
        ((ls.flatten ++ rest).drop (S * i)).take S = blk := by
  intro ls
  induction ls with
  | nil => intro rest _ i blk h; simp at h
  | cons l tail ih =>
    intro rest h i blk hblk
    have hl : l.length = S := h l (List.mem_cons_self l tail)
    match i with
    | 0 =>
      have hb : l = blk := by simpa using hblk
      subst hb
      simp only [Nat.mul_zero, List.drop_zero, List.flatten_cons, List.append_assoc]
      exact List.take_left' hl
    | Nat.succ j =>
      have hblk' : tail[j]? = some blk := by simpa using hblk
      have hdrop : ((l :: tail).flatten ++ rest).drop (S * (j + 1))
          = (tail.flatten ++ rest).drop (S * j) := by
        have h1 : (l :: tail).flatten ++ rest = l ++ (tail.flatten ++ rest) := by
          simp [List.flatten_cons, List.append_assoc]
        rw [h1, show S * (j + 1) = S + S * j by ring, ← List.drop_drop,
          List.drop_left' hl]
      rw [hdrop]
      exact ih rest (fun l' hl' => h l' (List.mem_cons_of_mem l hl')) j blk hblk'

theorem flatten_drop_uniform (S : Nat) :
    ∀ (ls : List (List Nat)) (rest : List Nat), (∀ l ∈ ls, l.length = S) →
      (ls.flatten ++ rest).drop (S * ls.length) = rest := by
  intro ls
  induction ls with
  | nil => intro rest _; simp
  | cons l tail ih =>
    intro rest h
    have hl : l.length = S := h l (List.mem_cons_self l tail)
    have h1 : (l :: tail).flatten ++ rest = l ++ (tail.flatten ++ rest) := by
      simp [List.flatten_cons, List.append_assoc]
    rw [h1, List.length_cons, show S * (tail.length + 1) = S + S * tail.length by ring,
      ← List.drop_drop, List.drop_left' hl]
    exact ih rest fun l' hl' => h l' (List.mem_cons_of_mem l hl')

/-- Claim C9: an aggregated output row serializes into exactly
`(B + 1) * S` bytes — `B` share-sized breakdown-key blocks followed by the
`S`-byte credit; serialize panics unless the breakdown key has length `B`
and the buffer has length `(B + 1) * S`; and deserialize of a serialized
row reproduces its breakdown key and credit.  `ser`/`deser` is the
`Serializable` impl of the share type `T`, assumed to write exactly `S`
bytes and to round-trip. -/
theorem c9_aggregate_row_serde (T : Type) (S : Nat) (ser : T → List Nat)
    (deser : List Nat → T) (hsize : ∀ t, (ser t).length = S)
    (hround : ∀ t, deser (ser t) = t) (B : Nat) :
    (∀ row : MCAggregateCreditOutputRow T, row.breakdown_key.length = B →
      ∃ buf, MCAggregateCreditOutputRow.serialize B S ser row (rowSize B S) = some buf ∧
        buf.length = (B + 1) * S ∧
        buf = (row.breakdown_key.map ser).flatten ++ ser row.credit ∧
        MCAggregateCreditOutputRow.deserialize B S deser buf = some row) ∧
    (∀ (row : MCAggregateCreditOutputRow T) (bufLen : Nat),
      ¬(row.breakdown_key.length = B ∧ bufLen = (B + 1) * S) →
      MCAggregateCreditOutputRow.serialize B S ser row bufLen = none) := by
  constructor
  · intro row hB
    have huni : ∀ l ∈ row.breakdown_key.map ser, l.length = S := by
      intro l hl
      obtain ⟨t, _, rfl⟩ := List.mem_map.1 hl
      exact hsize t
    have hflat : (row.breakdown_key.map ser).flatten.length = B * S := by
      rw [flatten_length_of_uniform S _ huni, List.length_map, hB]
    have hlen : ((row.breakdown_key.map ser).flatten ++ ser row.credit).length
        = (B + 1) * S := by
      rw [List.length_append, hflat, hsize, Nat.succ_mul]
    refine ⟨(row.breakdown_key.map ser).flatten ++ ser row.credit,
      by simp [MCAggregateCreditOutputRow.serialize, hB, rowSize], hlen, rfl, ?_⟩
    rw [MCAggregateCreditOutputRow.deserialize, rowSize, if_pos hlen]
    have hbk : (List.range B).map
        (fun i => deser ((((row.breakdown_key.map ser).flatten ++ ser row.credit).drop
          (S * i)).take S)) = row.breakdown_key := by
      apply List.ext_getElem?
      intro i
      by_cases hi : i < B
      · have hex : ∃ t, row.breakdown_key[i]? = some t := by
          cases hc : row.breakdown_key[i]? with
          | none =>
            have hge := List.getElem?_eq_none_iff.1 hc
            omega
          | some t => exact ⟨t, rfl⟩
        obtain ⟨t, hib⟩ := hex
        have hblk : (row.breakdown_key.map ser)[i]? = some (ser t) := by
          rw [List.getElem?_map, hib]
          rfl
        have hslice := flatten_block_slice S (row.breakdown_key.map ser)
          (ser row.credit) huni i _ hblk
        rw [List.getElem?_map, List.getElem?_range hi, Option.map_some', hslice, hround, hib]
      · have h1 : ((List.range B).map
            (fun i => deser ((((row.breakdown_key.map ser).flatten ++ ser row.credit).drop
              (S * i)).take S)))[i]? = none := by
          apply List.getElem?_eq_none
          simp [List.length_map, List.length_range]
          omega
        have h2 : row.breakdown_key[i]? = none := by
          apply List.getElem?_eq_none
          omega
        rw [h1, h2]
    have hcr : ((row.breakdown_key.map ser).flatten ++ ser row.credit).drop (S * B)
        = ser row.credit := by
      have hlb : (row.breakdown_key.map ser).length = B := by
        rw [List.length_map, hB]
      rw [← hlb]
      exact flatten_drop_uniform S _ _ huni
    rw [hbk, hcr, hround]
  · intro row bufLen h
    rw [MCAggregateCreditOutputRow.serialize]
    by_cases h1 : row.breakdown_key.length = B
    · have h2 : bufLen ≠ (B + 1) * S := fun hb => h ⟨h1, hb⟩
      rw [if_pos h1, if_neg (by simpa [rowSize] using h2)]
    · rw [if_neg h1]

/-- Witness for C9 with `T = Bool`, one-byte shares, and a two-bit
breakdown key. -/
theorem c9_aggregate_row_serde_witness :
    (∀ t : Bool, ((fun b => [cond b 1 0]) t : List Nat).length = 1) ∧
    (∀ t : Bool, (fun l : List Nat => decide (l.headD 0 = 1)) ((fun b => [cond b 1 0]) t) = t) ∧
    (MCAggregateCreditOutputRow.mk [true, false] true).breakdown_key.length = 2 ∧
    (∃ buf, MCAggregateCreditOutputRow.serialize 2 1 (fun b => [cond b 1 0])
        (MCAggregateCreditOutputRow.mk [true, false] true) (rowSize 2 1) = some buf ∧
      buf.length = (2 + 1) * 1 ∧
      buf = ((MCAggregateCreditOutputRow.mk [true, false] true).breakdown_key.map
          (fun b => [cond b 1 0])).flatten ++ (fun b => [cond b 1 0]) true ∧
      MCAggregateCreditOutputRow.deserialize 2 1 (fun l : List Nat => decide (l.headD 0 = 1))
          buf = some (MCAggregateCreditOutputRow.mk [true, false] true)) :=
  ⟨by decide, by decide, by decide,
    (c9_aggregate_row_serde Bool 1 (fun b => [cond b 1 0])
        (fun l : List Nat => decide (l.headD 0 = 1)) (by decide) (by decide) 2).1
      (MCAggregateCreditOutputRow.mk [true, false] true) (by decide)⟩

/-! ## Step tree construction (claim C3) -/

theorem getElem?_some_lt {α : Type} {l : List α} {i : Nat} {v : α} (h : l[i]? = some v) :
    i < l.length := by
  by_contra hc
  rw [List.getElem?_eq_none (by omega)] at h
  exact Option.noConfusion h

theorem getElem?_append_some {α : Type} {l l' : List α} {i : Nat} {v : α}
    (h : l[i]? = some v) : (l ++ l')[i]? = some v := by
  rw [List.getElem?_append_left (getElem?_some_lt h)]
  exact h

theorem splitCharsAux_ne_nil (sep : List Char) :
    ∀ (fuel : Nat) (acc s : List Char), splitCharsAux sep fuel acc s ≠ [] := by
  intro fuel
  induction fuel with
  | zero => intro acc s; simp [splitCharsAux]
  | succ n ih =>
    intro acc s
    cases s with
    | nil => simp [splitCharsAux]
    | cons c rest =>
      rw [splitCharsAux]
      by_cases h : sep.isPrefixOf (c :: rest)
      · simp [h]
      · simpa [h] using ih (c :: acc) rest

theorem lineDepth_pos (line : String) : 1 ≤ lineDepth line := by
  rw [lineDepth, splitString, List.length_map]
  exact List.length_pos.2 (splitCharsAux_ne_nil _ _ _ _)

theorem mkStep_spec (i : Nat) (line : String) (hi : i + 1 ≤ 65535)
    (hd : lineDepth line ≤ 255) :
    ∃ md nm pth, mkStep i line = some ⟨i + 1, lineDepth line, md, nm, pth⟩ := by
  have hlen : ((splitString line "/").map split_step_module_and_name).length
      = lineDepth line := by
    rw [List.length_map, lineDepth]
  have hne : (splitString line "/").map split_step_module_and_name ≠ [] := by
    intro hnil
    rw [hnil] at hlen
    have hpos := lineDepth_pos line
    simp at hlen
    omega
  obtain ⟨lastPart, hlast⟩ :=
    Option.isSome_iff_exists.1 (List.getLast?_isSome.2 hne)
  refine ⟨lastPart.1, lastPart.2, String.intercalate "/"
    (((splitString line "/").map split_step_module_and_name).map Prod.snd), ?_⟩
  simp only [mkStep]
  rw [if_neg (show ¬65536 ≤ i + 1 by omega),
    if_neg (show ¬256 ≤ ((splitString line "/").map split_step_module_and_name).length by
      rw [hlen]; omega),
    hlast, hlen]

theorem mkSteps_spec :
    ∀ (lines : List String) (i : Nat), i + lines.length ≤ 65535 →
      (∀ line ∈ lines, lineDepth line ≤ 255) →
      ∃ steps, mkSteps i lines = some steps ∧
        steps.length = lines.length ∧
        steps.map StepMetaData.depth = lines.map lineDepth ∧
        ∀ (j : Nat) (line : String), lines[j]? = some line →
          ∃ md nm pth, steps[j]? = some ⟨i + j + 1, lineDepth line, md, nm, pth⟩ := by
  intro lines
  induction lines with
  | nil =>
    intro i _ _
    refine ⟨[], rfl, rfl, rfl, ?_⟩
    intro j line h
    simp at h
  | cons line rest ih =>
    intro i hi hd
    rw [List.length_cons] at hi
    obtain ⟨md, nm, pth, hstep⟩ := mkStep_spec i line (by omega)
      (hd line (List.mem_cons_self line rest))
    obtain ⟨steps, hsteps, hlen, hdepths, hget⟩ := ih (i + 1)
      (by omega) (fun l hl => hd l (List.mem_cons_of_mem line hl))
    refine ⟨⟨i + 1, lineDepth line, md, nm, pth⟩ :: steps, ?_, ?_, ?_, ?_⟩
    · rw [mkSteps, hstep, hsteps]
    · rw [List.length_cons, List.length_cons, hlen]
    · simp only [List.map_cons, hdepths]
    · intro j l hj
      cases j with
      | zero =>
        have hle : line = l := by simpa using hj
        subst hle
        exact ⟨md, nm, pth, by simp⟩
      | succ k =>
        have hj' : rest[k]? = some l := by simpa using hj
        obtain ⟨md', nm', pth', h'⟩ := hget k l hj'
        refine ⟨md', nm', pth', ?_⟩
        have harith : i + (k + 1) + 1 = i + 1 + k + 1 := by ring
        rw [harith]
        simpa using h'

theorem climbUp_spine (nodes : List TreeNode) (last d0 : Nat) (A : Nat → Nat)
    (inv : TreeInv nodes last d0 A) :
    ∀ k m, k ≤ m → m ≤ d0 → climbUp nodes (A m) k = some (A (m - k)) := by
  intro k
  induction k with
  | zero => intro m _ _; simp [climbUp]
  | succ n ih =>
    intro m hkm hmd
    obtain ⟨nd, hnd, _⟩ := inv.depth_at m hmd
    obtain ⟨nd', hnd', hpar⟩ := inv.parent_at (m - 1) (by omega)
    have hmm : m - 1 + 1 = m := by omega
    rw [hmm] at hnd'
    have hnn : nd' = nd := by
      rw [hnd] at hnd'
      exact (Option.some.inj hnd').symm
    subst hnn
    simp only [climbUp, hnd, hpar]
    rw [show m - (n + 1) = m - 1 - n by omega]
    exact ih (m - 1) (by omega) (by omega)

theorem construct_tree_go_spec :
    ∀ (steps : List StepMetaData) (nodes : List TreeNode) (last d0 : Nat) (A : Nat → Nat),
      TreeInv nodes last d0 A →
      validDepthsFrom d0 (steps.map StepMetaData.depth) = true →
      ∃ finalNodes, construct_tree_go nodes last steps = some finalNodes ∧
        finalNodes.length = nodes.length + steps.length ∧
        (∀ j : Nat, j < nodes.length → finalNodes[j]? = nodes[j]?) ∧
        (∀ (t : Nat) (step : StepMetaData), steps[t]? = some step →
          ∃ p, finalNodes[nodes.length + t]? = some ⟨step, some p⟩ ∧
            p < nodes.length + t ∧
            (∃ pd, finalNodes[p]? = some pd ∧ pd.data.depth = step.depth - 1) ∧
            (∀ (j : Nat) (nd : TreeNode), p < j → j < nodes.length + t →
              finalNodes[j]? = some nd → nd.data.depth ≠ step.depth - 1)) := by
  intro steps
  induction steps with
  | nil =>
    intro nodes last d0 A inv _
    refine ⟨nodes, rfl, by simp [construct_tree_go], fun j _ => rfl, ?_⟩
    intro t step h
    simp at h
  | cons step rest ih =>
    intro nodes last d0 A inv hvalid
    rw [List.map_cons, validDepthsFrom] at hvalid
    simp only [Bool.and_eq_true, decide_eq_true_eq] at hvalid
    have h1 : 1 ≤ step.depth := hvalid.1.1
    have h2 : step.depth ≤ d0 + 1 := hvalid.1.2
    have hvrest : validDepthsFrom step.depth (rest.map StepMetaData.depth) = true :=
      hvalid.2
    obtain ⟨lastNode, hlast, hlastd⟩ := inv.depth_at d0 le_rfl
    rw [inv.last_eq] at hlast
    have hclimb : climbUp nodes last (d0 + 1 - step.depth) = some (A (step.depth - 1)) := by
      have hcl := climbUp_spine nodes last d0 A inv (d0 + 1 - step.depth) d0 (by omega) le_rfl
      rw [inv.last_eq] at hcl
      rw [hcl, show d0 - (d0 + 1 - step.depth) = step.depth - 1 by omega]
    set p := A (step.depth - 1) with hp
    have hplt : p < nodes.length := by
      obtain ⟨pd, hpd, _⟩ := inv.depth_at (step.depth - 1) (by omega)
      exact getElem?_some_lt hpd
    set newNode : TreeNode := ⟨step, some p⟩ with hnew
    set nodes' := nodes ++ [newNode] with hnodes'
    have hnewget : nodes'[nodes.length]? = some newNode := by
      rw [hnodes']
      simp
    have hstable : ∀ (j : Nat) (v : TreeNode), nodes[j]? = some v → nodes'[j]? = some v := by
      intro j v h
      rw [hnodes']
      exact getElem?_append_some h
    have hlen' : nodes'.length = nodes.length + 1 := by simp [hnodes']
    have inv' : TreeInv nodes' nodes.length step.depth
        (fun e => if e = step.depth then nodes.length else A e) := by
      constructor
      · simp
      · intro e he
        by_cases hed : e = step.depth
        · subst hed
          refine ⟨newNode, ?_, ?_⟩
          · simp only [if_pos rfl]
            exact hnewget
          · rw [hnew]
        · obtain ⟨nd, hnd, hdep⟩ := inv.depth_at e (by omega)
          refine ⟨nd, ?_, hdep⟩
          simp only [if_neg hed]
          exact hstable _ _ hnd
      · intro e he
        by_cases hed : e + 1 = step.depth
        · have hene : e ≠ step.depth := by omega
          refine ⟨newNode, ?_, ?_⟩
          · rw [hed]
            simp only [if_pos rfl]
            exact hnewget
          · simp only [if_neg hene]
            rw [hp, show e = step.depth - 1 by omega]
        · have hene : e ≠ step.depth := by omega
          obtain ⟨nd, hnd, hpar⟩ := inv.parent_at e (by omega)
          refine ⟨nd, ?_, ?_⟩
          · simp only [if_neg hed]
            exact hstable _ _ hnd
          · simp only [if_neg hene]
            exact hpar
      · intro e he j nd hnd hdep
        have hjlt : j < nodes.length + 1 := by
          have hj := getElem?_some_lt hnd
          rwa [hlen'] at hj
        by_cases hed : e = step.depth
        · subst hed
          simp only [if_pos]
          omega
        · simp only [if_neg hed]
          by_cases hj : j < nodes.length
          · have hnd0 : nodes[j]? = some nd := by
              rw [hnodes', List.getElem?_append_left hj] at hnd
              exact hnd
            exact inv.recent e (by omega) j nd hnd0 hdep
          · have hje : j = nodes.length := by omega
            subst hje
            rw [hnewget] at hnd
            have hne : newNode = nd := Option.some.inj hnd
            subst hne
            rw [hnew] at hdep
            exact absurd hdep.symm hed
    obtain ⟨finalNodes, hfin, hflen, hfstable, hfsteps⟩ :=
      ih nodes' nodes.length step.depth _ inv' hvrest
    refine ⟨finalNodes, ?_, ?_, ?_, ?_⟩
    · simp only [construct_tree_go, hlast, hlastd, hclimb]
      exact hfin
    · rw [hflen, hlen', List.length_cons]
      omega
    · intro j hj
      rw [hfstable j (by omega), hnodes']
      exact List.getElem?_append_left hj
    · intro t st hst
      cases t with
      | zero =>
        have hse : step = st := by simpa using hst
        subst hse
        refine ⟨p, ?_, by omega, ?_, ?_⟩
        · have hknown := hfstable nodes.length (by omega)
          rw [show nodes.length + 0 = nodes.length by omega, hknown, hnewget, hnew]
        · obtain ⟨pd, hpd, hpddep⟩ := inv.depth_at (step.depth - 1) (by omega)
          refine ⟨pd, ?_, hpddep⟩
          rw [hfstable p (by omega)]
          exact hstable _ _ hpd
        · intro j nd hpj hjlt hnd hdep
          have hj : j < nodes.length := by omega
          have hnd0 : nodes[j]? = some nd := by
            rw [hfstable j (by omega), hnodes', List.getElem?_append_left hj] at hnd
            exact hnd
          have hle := inv.recent (step.depth - 1) (by omega) j nd hnd0 hdep
          omega
      | succ k =>
        have hst' : rest[k]? = some st := by simpa using hst
        obtain ⟨q, hg1, hg2, hg3, hg4⟩ := hfsteps k st hst'
        refine ⟨q, ?_, by omega, hg3, ?_⟩
        · rw [show nodes.length + (k + 1) = nodes'.length + k by omega]
          exact hg1
        · intro j nd hpj hjlt hnd
          exact hg4 j nd hpj (by omega) hnd

theorem treeInv_init : TreeInv [⟨rootStep, none⟩] 0 0 (fun _ => 0) := by
  constructor
  · rfl
  · intro e he
    have he0 : e = 0 := by omega
    subst he0
    exact ⟨⟨rootStep, none⟩, rfl, rfl⟩
  · intro e he
    omega
  · intro e he j nd hnd _
    have hj := getElem?_some_lt hnd
    simp at hj
    omega

/-- Claim C3: for a valid steps file of `N` lines (each line's depth is its
number of `/` segments; the file starts at depth 1 and descends at most one
level at a time, as the sortedness requirement implies; `N` and the depths
fit into `u16`/`u8`), the constructed tree has exactly `N + 1` nodes: the
synthetic root with id 0 and depth 0 at index 0, one node per line with
ids `1..N` assigned in input order, each node's depth equal to its line's
segment count, and each node's parent the most recent previously added
node of depth one less. -/
theorem c3_step_tree (lines : List String)
    (hvalid : validDepthsFrom 0 (lines.map lineDepth) = true)
    (hcount : lines.length ≤ 65535)
    (hdep : ∀ line ∈ lines, lineDepth line ≤ 255) :
    ∃ nodes, ipa_state_transition_map lines = some nodes ∧
      nodes.length = lines.length + 1 ∧
      nodes[0]? = some ⟨rootStep, none⟩ ∧
      ∀ (i : Nat) (line : String), lines[i]? = some line →
        ∃ nd, nodes[i + 1]? = some nd ∧
          nd.data.id = i + 1 ∧
          nd.data.depth = lineDepth line ∧
          ∃ q, nd.parent = some q ∧ q < i + 1 ∧
            (∃ pd, nodes[q]? = some pd ∧ pd.data.depth = lineDepth line - 1) ∧
            ∀ (j : Nat) (nd' : TreeNode), q < j → j < i + 1 → nodes[j]? = some nd' →
              nd'.data.depth ≠ lineDepth line - 1 := by
  obtain ⟨steps, hsteps, hslen, hsdepths, hsget⟩ := mkSteps_spec lines 0 (by omega) hdep
  have hv : validDepthsFrom 0 (steps.map StepMetaData.depth) = true := by
    rw [hsdepths]
    exact hvalid
  obtain ⟨nodes, hgo, hlen, hstable, hfacts⟩ :=
    construct_tree_go_spec steps [⟨rootStep, none⟩] 0 0 (fun _ => 0) treeInv_init hv
  refine ⟨nodes, ?_, ?_, ?_, ?_⟩
  · simp only [ipa_state_transition_map, hsteps, construct_tree]
    exact hgo
  · rw [hlen, hslen]
    simp [Nat.add_comm]
  · rw [hstable 0 (by norm_num)]
    rfl
  · intro i line hline
    obtain ⟨md, nm, pth, hstep⟩ := hsget i line hline
    rw [Nat.zero_add] at hstep
    obtain ⟨q, hq1, hq2, hq3, hq4⟩ := hfacts i _ hstep
    rw [show ([(⟨rootStep, none⟩ : TreeNode)] : List TreeNode).length + i = i + 1 by
      simp [Nat.add_comm]] at hq1 hq2
    refine ⟨⟨⟨i + 1, lineDepth line, md, nm, pth⟩, some q⟩, hq1, rfl, rfl, q, rfl,
      by omega, hq3, ?_⟩
    intro j nd' hqj hji hnd'
    exact hq4 j nd' hqj (by simpa [Nat.add_comm] using hji) hnd'

/-- Witness for C3 on the spec's concrete steps file:
`s::S::A`, `s::S::A/t::T::B`, `s::S::A/t::T::C`, `s::S::D`. -/
theorem c3_step_tree_witness :
    (validDepthsFrom 0
        (["s::S::A", "s::S::A/t::T::B", "s::S::A/t::T::C", "s::S::D"].map lineDepth) = true ∧
      (["s::S::A", "s::S::A/t::T::B", "s::S::A/t::T::C", "s::S::D"] : List String).length
        ≤ 65535 ∧
      ∀ line ∈ (["s::S::A", "s::S::A/t::T::B", "s::S::A/t::T::C", "s::S::D"] : List String),
        lineDepth line ≤ 255) ∧
    ∃ nodes,
      ipa_state_transition_map ["s::S::A", "s::S::A/t::T::B", "s::S::A/t::T::C", "s::S::D"]
        = some nodes ∧
      nodes.length = (["s::S::A", "s::S::A/t::T::B", "s::S::A/t::T::C",
        "s::S::D"] : List String).length + 1 ∧
      nodes[0]? = some ⟨rootStep, none⟩ ∧
      ∀ (i : Nat) (line : String),
        (["s::S::A", "s::S::A/t::T::B", "s::S::A/t::T::C",
          "s::S::D"] : List String)[i]? = some line →
        ∃ nd, nodes[i + 1]? = some nd ∧
          nd.data.id = i + 1 ∧
          nd.data.depth = lineDepth line ∧
          ∃ q, nd.parent = some q ∧ q < i + 1 ∧
            (∃ pd, nodes[q]? = some pd ∧ pd.data.depth = lineDepth line - 1) ∧
            ∀ (j : Nat) (nd' : TreeNode), q < j → j < i + 1 → nodes[j]? = some nd' →
              nd'.data.depth ≠ lineDepth line - 1 :=
  ⟨⟨by decide, by decide, by decide⟩,
    c3_step_tree ["s::S::A", "s::S::A/t::T::B", "s::S::A/t::T::C", "s::S::D"]
      (by decide) (by decide) (by decide)⟩
